import Mathlib

/-!
Verification of the signal/slot library (src/signals.h) and its intrusive
doubly-linked list (src/intrusive_list.h).

Two models are developed:

* `Node`: a pointer-level heap model of `details::intrusive_list_node`.
  The heap is a pair of maps `prev, next : Nat → Nat` over node addresses,
  and each member function is translated as a heap transformer that
  performs the same field reads and writes in the same order.

* `Signals`: an operational model of `signal<void(Args...)>`.  Connection
  objects are identified by their address (`CId`).  The state carries the
  signal's connection list in list order, each connection's owning-signal
  pointer (a `Bool`: the model covers one signal, so only null/non-null
  matters), and the iterator-holder stack of in-progress emissions (a
  cursor is `some c` when it points at the node with address `c`, `none`
  when it points at the sentinel `end()`).  Each public operation of the
  source is translated as a state transformer; the dispatch loop of
  `operator()` is a fuel-indexed interpreter whose callbacks are drawn
  from a small command language of the public operations a callback may
  perform.
-/

namespace Node

/-- Heap of `details::intrusive_list_node` objects: the `prev` and `next`
pointer fields of every node address. -/
structure Heap where
  prev : Nat → Nat
  next : Nat → Nat

/-- Write the `prev` field of node `a`. -/
def setPrev (h : Heap) (a v : Nat) : Heap :=
  ⟨fun z => if z = a then v else h.prev z, h.next⟩

/-- Write the `next` field of node `a`. -/
def setNext (h : Heap) (a v : Nat) : Heap :=
  ⟨h.prev, fun z => if z = a then v else h.next z⟩

/-- `intrusive_list_node::empty`: `next == this && prev == this`. -/
def emptyN (h : Heap) (a : Nat) : Bool :=
  h.next a == a && h.prev a == a

/-- `intrusive_list_node::quite_remove`: `prev = this; next = this;`. -/
def quiteRemove (h : Heap) (a : Nat) : Heap :=
  setNext (setPrev h a a) a a

/-- `intrusive_list_node::update`: `next->prev = this; prev->next = this;`
(the second statement reads the fields after the first assignment). -/
def update (h : Heap) (a : Nat) : Heap :=
  let h1 := setPrev h (h.next a) a
  setNext h1 (h1.prev a) a

/-- `intrusive_list_node::remove`: stitch the neighbours if the node is not
idle, then reset it to the self-loop. -/
def removeN (h : Heap) (a : Nat) : Heap :=
  if emptyN h a then quiteRemove h a
  else
    let h1 := setPrev h (h.next a) (h.prev a)
    let h2 := setNext h1 (h1.prev a) (h1.next a)
    quiteRemove h2 a

/-- Move constructor `intrusive_list_node(intrusive_list_node&& other)`,
constructing node `b` from node `a`.  `b`'s fields start uninitialized
(whatever the heap holds at `b`); the constructor only writes them. -/
def moveCtor (h : Heap) (b a : Nat) : Heap :=
  if emptyN h a then quiteRemove h b
  else
    let h1 := setNext h b (h.next a)
    let h2 := setPrev h1 b (h1.prev a)
    let h3 := update h2 b
    quiteRemove h3 a

/-- `intrusive_list_node::swap(other)` on nodes `a` (this) and `b` (other),
with the source's three-way case split on emptiness. -/
def swapN (h : Heap) (a b : Nat) : Heap :=
  if emptyN h a && emptyN h b then h
  else if emptyN h a || emptyN h b then
    let e := if emptyN h a then a else b
    let n := if emptyN h a then b else a
    let h1 := setNext h e (h.next n)
    let h2 := setPrev h1 e (h1.prev n)
    let h3 := update h2 e
    quiteRemove h3 n
  else
    let h1 := setPrev (setPrev h a (h.prev b)) b (h.prev a)
    let h2 := setNext (setNext h1 a (h1.next b)) b (h1.next a)
    let h3 := update h2 a
    update h3 b

/-- Move assignment `operator=(intrusive_list_node&& other)` of `a` into
`b`: guarded by the self-assignment check, it move-constructs a temporary
`t` (a fresh stack address) from `a`, swaps it with `b`, and destroys the
temporary (`~intrusive_list_node` calls `remove`). -/
def moveAssign (h : Heap) (b a t : Nat) : Heap :=
  if b = a then h
  else removeN (swapN (moveCtor h t a) t b) t

end Node

namespace Signals

/-- Address of a `connection` object. -/
abbrev CId := Nat

/-- An iterator-holder cursor: `some c` points at the connection at
address `c`, `none` is the list's sentinel (`end()`). -/
abbrev Cursor := Option CId

/-- State of one `signal<void(Args...)>` together with every `connection`
object that ever pointed at it.

* `alive`: the signal object has not been destroyed.
* `conns`: the signal's intrusive connection list, in list order.
* `sig`: for each connection address, whether its owning-signal pointer
  is non-null (the model covers a single signal).
* `holders`: the iterator-holder stack, head = `tail` = innermost
  emission; each entry is that holder's `current` cursor. -/
structure SigState where
  alive : Bool
  conns : List CId
  sig : CId → Bool
  holders : List Cursor

/-- Successor of `c` in list order: the element following the first
occurrence of `c`, or `none` (the sentinel) when `c` is last. -/
def nextAfter : List CId → CId → Cursor
  | [], _ => none
  | x :: xs, c => if x = c then xs.head? else nextAfter xs c

/-- One `++` on an iterator at node `c`: a linked node steps to its list
successor (possibly the sentinel); an idle node self-loops, so the
iterator stays at `c`. -/
def stepCursor (conns : List CId) (c : CId) : Cursor :=
  if c ∈ conns then nextAfter conns c else some c

/-- `intrusive_list::insert(++iterator(&a), b)`: splice `b` in directly
after the first occurrence of `a`; if `a` is not linked the list is
unchanged (unreachable in invariant states). -/
def insertAfter : List CId → CId → CId → List CId
  | [], _, _ => []
  | x :: xs, a, b => if x = a then x :: b :: xs else x :: insertAfter xs a b

/-- Replace element `i` of a list in place. -/
def modifyAt : List α → Nat → (α → α) → List α
  | [], _, _ => []
  | x :: xs, 0, f => f x :: xs
  | x :: xs, n + 1, f => x :: modifyAt xs n f

/-- `connection::disconnect`.  If the owning-signal pointer is null this
is a no-op.  Otherwise: walk the iterator-holder stack advancing every
cursor that references this connection, unlink (`remove`), and null the
owning-signal pointer. -/
def disconnectF (s : SigState) (c : CId) : SigState :=
  if s.sig c = true then
    { s with
      holders := s.holders.map fun cur => if cur = some c then stepCursor s.conns c else cur,
      conns := s.conns.erase c,
      sig := fun d => if d = c then false else s.sig d }
  else s

/-- `signal::connect` / `connection(signal*, slot_t)`: construct a fresh
connection object (its address is unused, encoded by the guard) and
`push_back` it, setting its owning-signal pointer.  The guard also
encodes that `connect` is only called on a live signal object. -/
def connectF (s : SigState) (c : CId) : SigState :=
  if s.alive = true ∧ s.sig c = false ∧ c ∉ s.conns then
    { s with conns := s.conns ++ [c], sig := fun d => if d = c then true else s.sig d }
  else s

/-- `signal::~signal`: walk the holder stack nulling every holder's
signal back-pointer (emptying the stack), then null every remaining
connection's owning-signal pointer; the member list's destructor unlinks
every node.  The connection objects themselves survive (caller-owned). -/
def destroySigF (_ : SigState) : SigState :=
  { alive := false, conns := [], sig := fun _ => false, holders := [] }

/-- Move constructor `connection(connection&& other)`, constructing the
fresh object `b` (guard: unused address, distinct from `a`) from `a`:
`b` copies `a`'s owning-signal pointer and, when that is non-null, is
inserted directly after `a`; then `a.disconnect()` runs, advancing every
cursor parked on `a` onto its new successor `b`. -/
def moveConnF (s : SigState) (b a : CId) : SigState :=
  if s.sig b = false ∧ b ∉ s.conns ∧ b ≠ a then
    if s.sig a = true then
      disconnectF
        { s with conns := insertAfter s.conns a b,
                 sig := fun d => if d = b then true else s.sig d } a
    else s
  else s

/-- `details::intrusive_list_node::swap` restricted to one signal's list:
exchange the two nodes' list positions (one-sided when exactly one of
them is linked).  Iterator holders are not touched, exactly as in the
source. -/
def listSwap (l : List CId) (a b : CId) : List CId :=
  if a ∈ l ∧ b ∈ l then l.map fun c => if c = a then b else if c = b then a else c
  else if a ∈ l then l.map fun c => if c = a then b else c
  else if b ∈ l then l.map fun c => if c = b then a else c
  else l

/-- `connection::swap`: swap the base nodes' list positions and swap the
`sig` pointers (the stored callables are modelled environmentally, keyed
by connection address). -/
def connSwapF (s : SigState) (a b : CId) : SigState :=
  { s with
    conns := listSwap s.conns a b,
    sig := fun d => if d = a then s.sig b else if d = b then s.sig a else s.sig d }

/-- `connection::~connection`: `disconnect()`, then the base-node
destructor unlinks the node (a no-op after a successful disconnect). -/
def destroyConnF (s : SigState) (c : CId) : SigState :=
  let s1 := disconnectF s c
  { s1 with conns := s1.conns.erase c }

/-- Move assignment `connection& operator=(connection&& other)` of `a`
into `b`: guarded self-assignment check, then
`connection(std::move(other)).swap(*this)` with a temporary at the fresh
stack address `t`, destroyed at the end of the full expression. -/
def moveAssignF (s : SigState) (b a t : CId) : SigState :=
  if b = a then s
  else destroyConnF (connSwapF (moveConnF s t a) t b) t

/-- Constructor of `iterator_holder`: push a holder whose cursor is
`begin()` onto the signal's stack (only ever run on a live signal). -/
def pushHolderF (s : SigState) : SigState :=
  if s.alive = true then { s with holders := s.conns.head? :: s.holders } else s

/-- One cursor advance, as performed by the dispatch loop's
`it.current++` (only ever executed on a cursor that is not at the
sentinel). -/
def advanceCursor (conns : List CId) : Cursor → Cursor
  | none => none
  | some c => stepCursor conns c

/-- Advance the cursor of holder `i` of the stack. -/
def advanceF (s : SigState) (i : Nat) : SigState :=
  { s with holders := modifyAt s.holders i (advanceCursor s.conns) }

/-- Destructor of `iterator_holder`: pop the holder (the stack is empty
already when the signal died under the emission). -/
def popHolderF (s : SigState) : SigState :=
  { s with holders := s.holders.tail }

/-- A public operation on the signal or one of its connections; emissions
are decomposed into their primitive holder steps, so any interleaving of
operations with in-progress (also nested) emissions is a sequence of
`Op`s. -/
inductive Op where
  | connect (c : CId)
  | disconnect (c : CId)
  | moveCtorOp (b a : CId)
  | moveAssignOp (b a t : CId)
  | destroyConn (c : CId)
  | destroySig
  | pushHolder
  | advance (i : Nat)
  | popHolder

/-- Interpret one public operation. -/
def applyOp (s : SigState) : Op → SigState
  | .connect c => connectF s c
  | .disconnect c => disconnectF s c
  | .moveCtorOp b a => moveConnF s b a
  | .moveAssignOp b a t => moveAssignF s b a t
  | .destroyConn c => destroyConnF s c
  | .destroySig => destroySigF s
  | .pushHolder => pushHolderF s
  | .advance i => advanceF s i
  | .popHolder => popHolderF s

/-- Structural invariant tying the connection list to the owning-signal
pointers: the list holds distinct nodes, a connection is linked iff its
owning-signal pointer is non-null, and a destroyed signal has an empty
list. -/
def InvL (s : SigState) : Prop :=
  s.conns.Nodup ∧ (∀ c, s.sig c = true ↔ c ∈ s.conns) ∧ (s.alive = false → s.conns = [])

/-- What a user callback may do, phrased over the public API. -/
inductive Cmd where
  | nop
  | disc (c : CId)
  | conn (c : CId)
  | moveC (b a : CId)
  | destroy
  | throwE
deriving DecidableEq

/-- The callable stored in each connection, modelled environmentally as
a command list keyed by the connection's address. -/
structure Env where
  slots : CId → List Cmd

/-- Run a callback body; the `Bool` result records whether it exited by
throwing. -/
def runCmds : List Cmd → SigState → SigState × Bool
  | [], s => (s, false)
  | c :: rest, s =>
    match c with
    | .nop => runCmds rest s
    | .disc i => runCmds rest (disconnectF s i)
    | .conn i => runCmds rest (connectF s i)
    | .moveC b a => runCmds rest (moveConnF s b a)
    | .destroy => runCmds rest (destroySigF s)
    | .throwE => (s, true)

/-- The dispatch loop of `signal::operator()`, fuel-indexed.  The loop's
own holder is the top of the stack.  Per iteration: exit if the cursor is
at the sentinel; otherwise capture the current connection, advance the
cursor (post-increment), invoke the callable with argument `x`
(recording the invocation), propagate a thrown exception, and exit if
the signal was destroyed under us (`it.sig` nulled). -/
def emitLoop (env : Env) (x : Nat) : Nat → SigState → List (CId × Nat) × SigState × Bool
  | 0, s => ([], s, false)
  | fuel + 1, s =>
    match s.holders with
    | [] => ([], s, false)
    | none :: _ => ([], s, false)
    | some c :: hs =>
      let r0 := runCmds (env.slots c) { s with holders := stepCursor s.conns c :: hs }
      if r0.2 then ([(c, x)], r0.1, true)
      else if r0.1.alive = false then ([(c, x)], r0.1, false)
      else
        let r := emitLoop env x fuel r0.1
        ((c, x) :: r.1, r.2)

/-- `signal::operator()(x)`: push an iterator holder whose cursor is
`begin()`, run the dispatch loop, and run the holder's destructor (which
pops the holder unless the signal died, in which case its back-pointer
was already nulled).  Returns the invocation trace, the final state, and
whether an exception propagated out. -/
def emit (env : Env) (x : Nat) (fuel : Nat) (s : SigState) : List (CId × Nat) × SigState × Bool :=
  let r := emitLoop env x fuel { s with holders := s.conns.head? :: s.holders }
  if r.2.1.alive = true then (r.1, { r.2.1 with holders := r.2.1.holders.tail }, r.2.2)
  else r

theorem nextAfter_middle (p l : List CId) (a : CId) (hp : a ∉ p) :
    nextAfter (p ++ a :: l) a = l.head? := by
  induction p with
  | nil => simp [nextAfter]
  | cons x xs ih =>
    have hxa : x ≠ a := fun h => hp (h ▸ List.mem_cons_self x xs)
    simp only [List.cons_append, nextAfter, if_neg hxa]
    exact ih fun h => hp (List.mem_cons_of_mem x h)

theorem stepCursor_middle (p l : List CId) (a : CId) (hp : a ∉ p) :
    stepCursor (p ++ a :: l) a = l.head? := by
  rw [stepCursor, if_pos (by simp), nextAfter_middle p l a hp]

theorem insertAfter_middle (p q : List CId) (a b : CId) (hp : a ∉ p) :
    insertAfter (p ++ a :: q) a b = p ++ a :: b :: q := by
  induction p with
  | nil => simp [insertAfter]
  | cons x xs ih =>
    have hxa : x ≠ a := fun h => hp (h ▸ List.mem_cons_self x xs)
    simp only [List.cons_append, insertAfter, if_neg hxa]
    exact congrArg (x :: ·) (ih fun h => hp (List.mem_cons_of_mem x h))

theorem erase_middle (p q : List CId) (a : CId) (hp : a ∉ p) :
    (p ++ a :: q).erase a = p ++ q := by
  rw [List.erase_append_right (a :: q) hp, List.erase_cons_head]

/-- Once the cursor of the running emission is at the sentinel, the
dispatch loop exits without touching the state. -/
theorem emitLoop_atEnd (env : Env) (x fuel : Nat) (al : Bool) (l : List CId) (sg : CId → Bool)
    (hs : List Cursor) :
    emitLoop env x fuel ⟨al, l, sg, none :: hs⟩ = ([], ⟨al, l, sg, none :: hs⟩, false) := by
  cases fuel <;> rfl

/-- Unfolding equation for one dispatch-loop iteration. -/
theorem emitLoop_succ (env : Env) (x fuel : Nat) (al : Bool) (l : List CId) (sg : CId → Bool)
    (c : CId) (hs : List Cursor) :
    emitLoop env x (fuel + 1) ⟨al, l, sg, some c :: hs⟩ =
      (let r0 := runCmds (env.slots c) ⟨al, l, sg, stepCursor l c :: hs⟩
       if r0.2 then ([(c, x)], r0.1, true)
       else if r0.1.alive = false then ([(c, x)], r0.1, false)
       else
         let r := emitLoop env x fuel r0.1
         ((c, x) :: r.1, r.2)) := rfl

/-- A segment of connections whose callables do nothing is dispatched in
list order, one fuel unit apiece, leaving the state untouched except for
the advancing cursor. -/
theorem emitLoop_nop_seg (env : Env) (x : Nat) :
    ∀ (mid pre rest : List CId) (sg : CId → Bool) (hs : List Cursor) (fuel : Nat),
      (pre ++ mid ++ rest).Nodup →
      (∀ c ∈ mid, env.slots c = []) →
      emitLoop env x (fuel + mid.length) ⟨true, pre ++ mid ++ rest, sg, (mid ++ rest).head? :: hs⟩ =
        ((mid.map fun c => (c, x)) ++
            (emitLoop env x fuel ⟨true, pre ++ mid ++ rest, sg, rest.head? :: hs⟩).1,
          (emitLoop env x fuel ⟨true, pre ++ mid ++ rest, sg, rest.head? :: hs⟩).2)
  | [], pre, rest, sg, hs, fuel, _, _ => by simp
  | m :: mid, pre, rest, sg, hs, fuel, hnd, hsl => by
    have hm : m ∉ pre := fun hmem =>
      (List.nodup_append.mp (List.nodup_append.mp hnd).1).2.2 hmem (List.mem_cons_self m mid)
    have hnd' : ((pre ++ [m]) ++ mid ++ rest).Nodup := by simpa using hnd
    have ih := emitLoop_nop_seg env x mid (pre ++ [m]) rest sg hs fuel hnd'
      (fun c hc => hsl c (List.mem_cons_of_mem m hc))
    have hshape : (pre ++ [m]) ++ mid ++ rest = pre ++ (m :: mid) ++ rest := by simp
    rw [hshape] at ih
    have hfuel : fuel + (m :: mid).length = (fuel + mid.length) + 1 := rfl
    have hcons : pre ++ (m :: mid) ++ rest = pre ++ m :: (mid ++ rest) := by simp
    rw [hfuel]
    have hhead : ((m :: mid) ++ rest).head? = some m := rfl
    rw [hhead, emitLoop_succ, hsl m (by simp)]
    have hstep : stepCursor (pre ++ (m :: mid) ++ rest) m = (mid ++ rest).head? := by
      rw [hcons]; exact stepCursor_middle pre (mid ++ rest) m hm
    rw [hstep]
    simp only [runCmds]
    rw [ih]
    simp

/-- A dispatch walk in which every callable either does nothing or
disconnects exactly its own connection: every connection of the segment
is invoked, in order, and the self-disconnecting live ones leave the
list. -/
theorem emitLoop_selfdisc (env : Env) (x : Nat) :
    ∀ (suf pre : List CId) (sg : CId → Bool) (hs : List Cursor) (fuel : Nat),
      (pre ++ suf).Nodup →
      (∀ c ∈ suf, env.slots c = [] ∨ env.slots c = [Cmd.disc c]) →
      (emitLoop env x (fuel + (suf.length + 1)) ⟨true, pre ++ suf, sg, suf.head? :: hs⟩).1 =
          (suf.map fun c => (c, x)) ∧
        (emitLoop env x (fuel + (suf.length + 1))
            ⟨true, pre ++ suf, sg, suf.head? :: hs⟩).2.1.alive = true ∧
        (emitLoop env x (fuel + (suf.length + 1)) ⟨true, pre ++ suf, sg, suf.head? :: hs⟩).2.1.conns
          = pre ++ suf.filter (fun c => !(decide (env.slots c = [Cmd.disc c]) && sg c)) ∧
        (emitLoop env x (fuel + (suf.length + 1)) ⟨true, pre ++ suf, sg, suf.head? :: hs⟩).2.2
          = false
  | [], pre, sg, hs, fuel, _, _ => by
    rw [show ([] : List CId).head? = none from rfl, emitLoop_atEnd]
    simp
  | c0 :: rest, pre, sg, hs, fuel, hnd, hsl => by
    have hc0pre : c0 ∉ pre := fun hmem =>
      (List.nodup_append.mp hnd).2.2 hmem (List.mem_cons_self c0 rest)
    have hc0rest : c0 ∉ rest := (List.nodup_cons.mp (List.nodup_append.mp hnd).2.1).1
    have hrhead : ¬rest.head? = some c0 := by
      cases rest with
      | nil => simp
      | cons y ys =>
        have hy : y ≠ c0 := fun h => hc0rest (h ▸ List.mem_cons_self y ys)
        simpa using hy
    have hstep : stepCursor (pre ++ c0 :: rest) c0 = rest.head? :=
      stepCursor_middle pre rest c0 hc0pre
    rw [show (c0 :: rest).head? = some c0 from rfl,
      show fuel + ((c0 :: rest).length + 1) = (fuel + (rest.length + 1)) + 1 from rfl,
      emitLoop_succ, hstep]
    rcases hsl c0 (List.mem_cons_self c0 rest) with h0 | h0
    · rw [h0]
      have ih := emitLoop_selfdisc env x rest (pre ++ [c0]) sg hs fuel (by simpa using hnd)
        (fun c hc => hsl c (List.mem_cons_of_mem c0 hc))
      simp only [List.append_assoc, List.singleton_append] at ih
      have hpred : (!(decide (env.slots c0 = [Cmd.disc c0]) && sg c0)) = true := by
        simp [h0]
      simp only [runCmds, List.filter_cons, hpred, if_true]
      refine ⟨?_, ?_, ?_, ?_⟩ <;> simp [ih.1, ih.2.1, ih.2.2.1, ih.2.2.2]
    · rw [h0]
      by_cases hsg : sg c0 = true
      · have hd : disconnectF ⟨true, pre ++ c0 :: rest, sg, rest.head? :: hs⟩ c0 =
            ⟨true, pre ++ rest, fun d => if d = c0 then false else sg d,
              rest.head? :: (hs.map fun cur =>
                if cur = some c0 then stepCursor (pre ++ c0 :: rest) c0 else cur)⟩ := by
          simp only [disconnectF, hsg, if_true, List.map_cons, if_neg hrhead]
          rw [erase_middle pre rest c0 hc0pre]
        have hnd2 : (pre ++ rest).Nodup :=
          hnd.sublist (List.Sublist.append_left (List.sublist_cons_self c0 rest) pre)
        have ih := emitLoop_selfdisc env x rest pre
          (fun d => if d = c0 then false else sg d)
          (hs.map fun cur => if cur = some c0 then stepCursor (pre ++ c0 :: rest) c0 else cur)
          fuel hnd2 (fun c hc => hsl c (List.mem_cons_of_mem c0 hc))
        have hfc : rest.filter
              (fun c => !(decide (env.slots c = [Cmd.disc c]) &&
                (fun d => if d = c0 then false else sg d) c)) =
            rest.filter (fun c => !(decide (env.slots c = [Cmd.disc c]) && sg c)) := by
          refine List.filter_congr fun c hc => ?_
          have hcc0 : c ≠ c0 := fun h => hc0rest (h ▸ hc)
          simp [hcc0]
        rw [hfc] at ih
        have hfun : (fun d => if d = c0 then false else sg d) =
            (fun d => !decide (d = c0) && sg d) :=
          funext fun d => by by_cases h : d = c0 <;> simp [h]
        rw [hfun] at ih
        have hpred : (!(decide (env.slots c0 = [Cmd.disc c0]) && sg c0)) = false := by
          simp [h0, hsg]
        simp only [runCmds, hd, List.filter_cons, hpred, Bool.false_eq_true, if_false]
        refine ⟨?_, ?_, ?_, ?_⟩ <;> simp [ih.1, ih.2.1, ih.2.2.1, ih.2.2.2]
      · have hd : disconnectF ⟨true, pre ++ c0 :: rest, sg, rest.head? :: hs⟩ c0 =
            ⟨true, pre ++ c0 :: rest, sg, rest.head? :: hs⟩ := by
          simp [disconnectF, hsg]
        have ih := emitLoop_selfdisc env x rest (pre ++ [c0]) sg hs fuel (by simpa using hnd)
          (fun c hc => hsl c (List.mem_cons_of_mem c0 hc))
        simp only [List.append_assoc, List.singleton_append] at ih
        have hpred : (!(decide (env.slots c0 = [Cmd.disc c0]) && sg c0)) = true := by
          simp [hsg]
        simp only [runCmds, hd, List.filter_cons, hpred, if_true]
        refine ⟨?_, ?_, ?_, ?_⟩ <;> simp [ih.1, ih.2.1, ih.2.2.1, ih.2.2.2]

theorem insertAfter_mem (l : List CId) (a b d : CId) :
    d ∈ insertAfter l a b ↔ d ∈ l ∨ (a ∈ l ∧ d = b) := by
  induction l with
  | nil => simp [insertAfter]
  | cons x xs ih =>
    by_cases hx : x = a
    · subst hx
      rw [insertAfter, if_pos rfl]
      simp only [List.mem_cons]
      tauto
    · rw [insertAfter, if_neg hx]
      simp only [List.mem_cons, ih]
      have hax : ¬(a = x) := fun h => hx h.symm
      tauto

theorem insertAfter_nodup (l : List CId) (a b : CId) (hnd : l.Nodup) (hb : b ∉ l) :
    (insertAfter l a b).Nodup := by
  induction l with
  | nil => simp [insertAfter]
  | cons x xs ih =>
    rcases List.nodup_cons.mp hnd with ⟨hx, hxs⟩
    have hbxs : b ∉ xs := fun h => hb (List.mem_cons_of_mem x h)
    have hbx : b ≠ x := fun h => hb (h ▸ List.mem_cons_self x xs)
    by_cases hxa : x = a
    · rw [insertAfter, if_pos hxa, List.nodup_cons, List.nodup_cons]
      exact ⟨by simp [Ne.symm hbx, hx], hbxs, hxs⟩
    · rw [insertAfter, if_neg hxa, List.nodup_cons]
      refine ⟨fun hmem => ?_, ih hxs hbxs⟩
      rcases (insertAfter_mem xs a b x).mp hmem with h1 | h1
      · exact hx h1
      · exact hbx h1.2.symm

theorem listSwap_nil (a b : CId) : listSwap [] a b = [] := by
  simp [listSwap]

/-- The base-node position swap preserves the linked-iff-owned coupling:
list positions and `sig` pointers are exchanged together. -/
theorem listSwap_invl (l : List CId) (sg : CId → Bool) (a b : CId)
    (hnd : l.Nodup) (hiff : ∀ c, sg c = true ↔ c ∈ l) :
    (listSwap l a b).Nodup ∧
      (∀ c, (if c = a then sg b else if c = b then sg a else sg c) = true ↔
        c ∈ listSwap l a b) := by
  by_cases hab : a = b
  · subst hab
    have hl : listSwap l a a = l := by
      rw [listSwap]
      by_cases ha : a ∈ l
      · rw [if_pos ⟨ha, ha⟩]
        have hpt : ∀ c ∈ l, (if c = a then a else if c = a then a else c) = c := by
          intro c _
          by_cases hc : c = a <;> simp [hc]
        rw [List.map_congr_left hpt]
        simp
      · rw [if_neg (fun h => ha h.1), if_neg ha, if_neg ha]
    rw [hl]
    refine ⟨hnd, fun c => ?_⟩
    by_cases hc : c = a <;> simp [hc, hiff]
  · by_cases ha : a ∈ l <;> by_cases hb : b ∈ l
    · -- both linked: exchange positions via the transposition
      rw [listSwap, if_pos ⟨ha, hb⟩]
      have hfn : (fun c => if c = a then b else if c = b then a else c) =
          fun c => Equiv.swap a b c := by
        funext c
        rw [Equiv.swap_apply_def]
      rw [hfn]
      have hmem : ∀ c : CId, c ∈ l.map (fun c => Equiv.swap a b c) ↔ Equiv.swap a b c ∈ l := by
        intro c
        constructor
        · intro hc
          rcases List.mem_map.mp hc with ⟨d, hd, hdc⟩
          have hcd : Equiv.swap a b c = d := by
            rw [← hdc, Equiv.swap_apply_self]
          rwa [hcd]
        · intro hc
          exact List.mem_map.mpr ⟨Equiv.swap a b c, hc, Equiv.swap_apply_self a b c⟩
      refine ⟨hnd.map (Equiv.swap a b).injective, fun c => ?_⟩
      rw [hmem c]
      by_cases h1 : c = a
      · subst h1
        rw [if_pos rfl, Equiv.swap_apply_left]
        exact hiff b
      · by_cases h2 : c = b
        · subst h2
          rw [if_neg h1, if_pos rfl, Equiv.swap_apply_right]
          exact hiff a
        · rw [if_neg h1, if_neg h2, Equiv.swap_apply_of_ne_of_ne h1 h2]
          exact hiff c
    · -- a linked, b idle: b takes a's position
      rw [listSwap, if_neg (fun h => hb h.2), if_pos ha]
      refine ⟨?_, fun c => ?_⟩
      · refine List.Nodup.map_on ?_ hnd
        intro u hu v hv huv
        by_cases h1 : u = a <;> by_cases h2 : v = a
        · rw [h1, h2]
        · rw [if_pos h1, if_neg h2] at huv
          exact absurd (huv ▸ hv) hb
        · rw [if_neg h1, if_pos h2] at huv
          exact absurd (huv ▸ hu) hb
        · rwa [if_neg h1, if_neg h2] at huv
      · by_cases h1 : c = a
        · rw [if_pos h1, h1]
          constructor
          · intro hc
            exact absurd ((hiff b).mp hc) hb
          · intro hc
            rcases List.mem_map.mp hc with ⟨d, hd, hdc⟩
            by_cases h2 : d = a
            · rw [if_pos h2] at hdc
              exact absurd hdc.symm hab
            · rw [if_neg h2] at hdc
              exact absurd hdc h2
        · by_cases h2 : c = b
          · rw [if_neg h1, if_pos h2, h2]
            constructor
            · intro _
              exact List.mem_map.mpr ⟨a, ha, if_pos rfl⟩
            · intro _
              exact (hiff a).mpr ha
          · rw [if_neg h1, if_neg h2]
            rw [hiff c]
            constructor
            · intro hc
              exact List.mem_map.mpr ⟨c, hc, if_neg h1⟩
            · intro hc
              rcases List.mem_map.mp hc with ⟨d, hd, hdc⟩
              by_cases h3 : d = a
              · rw [if_pos h3] at hdc
                exact absurd hdc.symm h2
              · rw [if_neg h3] at hdc
                exact hdc ▸ hd
    · -- a idle, b linked: a takes b's position
      rw [listSwap, if_neg (fun h => ha h.1), if_neg ha, if_pos hb]
      refine ⟨?_, fun c => ?_⟩
      · refine List.Nodup.map_on ?_ hnd
        intro u hu v hv huv
        by_cases h1 : u = b <;> by_cases h2 : v = b
        · rw [h1, h2]
        · rw [if_pos h1, if_neg h2] at huv
          exact absurd (huv ▸ hv) ha
        · rw [if_neg h1, if_pos h2] at huv
          exact absurd (huv ▸ hu) ha
        · rwa [if_neg h1, if_neg h2] at huv
      · by_cases h1 : c = a
        · rw [if_pos h1, h1]
          constructor
          · intro _
            exact List.mem_map.mpr ⟨b, hb, if_pos rfl⟩
          · intro _
            exact (hiff b).mpr hb
        · by_cases h2 : c = b
          · rw [if_neg h1, if_pos h2, h2]
            constructor
            · intro hc
              exact absurd ((hiff a).mp hc) ha
            · intro hc
              rcases List.mem_map.mp hc with ⟨d, hd, hdc⟩
              by_cases h3 : d = b
              · rw [if_pos h3] at hdc
                exact absurd hdc.symm (fun h : b = a => hab h.symm)
              · rw [if_neg h3] at hdc
                exact absurd hdc h3
          · rw [if_neg h1, if_neg h2, hiff c]
            constructor
            · intro hc
              exact List.mem_map.mpr ⟨c, hc, if_neg h2⟩
            · intro hc
              rcases List.mem_map.mp hc with ⟨d, hd, hdc⟩
              by_cases h3 : d = b
              · rw [if_pos h3] at hdc
                exact absurd hdc.symm h1
              · rw [if_neg h3] at hdc
                exact hdc ▸ hd
    · -- both idle: untouched
      rw [listSwap, if_neg (fun h => ha h.1), if_neg ha, if_neg hb]
      refine ⟨hnd, fun c => ?_⟩
      by_cases h1 : c = a
      · subst h1
        rw [if_pos rfl]
        constructor
        · intro hc
          exact absurd ((hiff b).mp hc) hb
        · intro hc
          exact absurd hc ha
      · by_cases h2 : c = b
        · subst h2
          rw [if_neg h1, if_pos rfl]
          constructor
          · intro hc
            exact absurd ((hiff a).mp hc) ha
          · intro hc
            exact absurd hc hb
        · rw [if_neg h1, if_neg h2]
          exact hiff c

/-- Unfolding of `disconnect` on a connection whose owning-signal
pointer is set. -/
theorem disconnectF_pos (s : SigState) (c : CId) (h : s.sig c = true) :
    disconnectF s c =
      ⟨s.alive, s.conns.erase c, fun d => if d = c then false else s.sig d,
        s.holders.map fun cur => if cur = some c then stepCursor s.conns c else cur⟩ := by
  rw [disconnectF, if_pos h]

theorem invl_disconnectF (s : SigState) (c : CId) (h : InvL s) : InvL (disconnectF s c) := by
  by_cases hc : s.sig c = true
  · rcases h with ⟨hnd, hiff, hal⟩
    rw [disconnectF_pos s c hc]
    refine ⟨hnd.erase c, fun d => ?_, fun hal2 => ?_⟩
    · dsimp only
      by_cases hdc : d = c
      · rw [if_pos hdc, hdc]
        simp [List.Nodup.mem_erase_iff hnd]
      · rw [if_neg hdc, hiff d, List.Nodup.mem_erase_iff hnd]
        simp [hdc]
    · dsimp only at hal2 ⊢
      rw [hal hal2]
      rfl
  · have heq : disconnectF s c = s := by rw [disconnectF, if_neg hc]
    rw [heq]
    exact h

theorem invl_connectF (s : SigState) (c : CId) (h : InvL s) : InvL (connectF s c) := by
  rw [connectF]
  by_cases hg : s.alive = true ∧ s.sig c = false ∧ c ∉ s.conns
  · rw [if_pos hg]
    rcases h with ⟨hnd, hiff, _⟩
    rcases hg with ⟨hal1, _, hcm⟩
    refine ⟨?_, fun d => ?_, fun hal2 => ?_⟩
    · dsimp only
      rw [List.nodup_append]
      exact ⟨hnd, List.nodup_singleton c,
        fun e he1 he2 => hcm ((List.mem_singleton.mp he2) ▸ he1)⟩
    · dsimp only
      by_cases hdc : d = c
      · rw [if_pos hdc, hdc]
        simp
      · rw [if_neg hdc, hiff d]
        simp [hdc]
    · dsimp only at hal2
      rw [hal1] at hal2
      cases hal2
  · rw [if_neg hg]
    exact h

theorem invl_moveConnF (s : SigState) (b a : CId) (h : InvL s) : InvL (moveConnF s b a) := by
  rw [moveConnF]
  by_cases hg : s.sig b = false ∧ b ∉ s.conns ∧ b ≠ a
  · rw [if_pos hg]
    by_cases hsga : s.sig a = true
    · rw [if_pos hsga]
      refine invl_disconnectF _ a ?_
      rcases h with ⟨hnd, hiff, hal⟩
      rcases hg with ⟨_, hbm, _⟩
      have ham : a ∈ s.conns := (hiff a).mp hsga
      refine ⟨insertAfter_nodup _ a b hnd hbm, fun d => ?_, fun hal2 => ?_⟩
      · dsimp only
        by_cases hdb : d = b
        · rw [if_pos hdb, hdb]
          simp [insertAfter_mem, ham]
        · rw [if_neg hdb, hiff d, insertAfter_mem]
          simp [hdb]
      · dsimp only at hal2
        rw [hal hal2] at ham
        cases ham
    · rw [if_neg hsga]
      exact h
  · rw [if_neg hg]
    exact h

theorem invl_connSwapF (s : SigState) (a b : CId) (h : InvL s) : InvL (connSwapF s a b) := by
  rcases h with ⟨hnd, hiff, hal⟩
  have hsw := listSwap_invl s.conns s.sig a b hnd hiff
  refine ⟨hsw.1, hsw.2, fun hal2 => ?_⟩
  show listSwap s.conns a b = []
  rw [hal hal2, listSwap_nil]

theorem invl_destroyConnF (s : SigState) (c : CId) (h : InvL s) : InvL (destroyConnF s c) := by
  have h1 := invl_disconnectF s c h
  rw [destroyConnF]
  have hcm : c ∉ (disconnectF s c).conns := fun hmem => by
    have := (h1.2.1 c).mpr hmem
    by_cases hc : s.sig c = true
    · rw [disconnectF_pos s c hc] at this
      dsimp only at this
      rw [if_pos rfl] at this
      cases this
    · have heq : disconnectF s c = s := by rw [disconnectF, if_neg hc]
      rw [heq] at this
      exact hc this
  rw [List.erase_of_not_mem hcm]
  exact h1

theorem invl_moveAssignF (s : SigState) (b a t : CId) (h : InvL s) :
    InvL (moveAssignF s b a t) := by
  rw [moveAssignF]
  by_cases hba : b = a
  · rw [if_pos hba]
    exact h
  · rw [if_neg hba]
    exact invl_destroyConnF _ t (invl_connSwapF _ t b (invl_moveConnF s t a h))

theorem invl_destroySigF (s : SigState) : InvL (destroySigF s) :=
  ⟨List.nodup_nil, fun c => by simp [destroySigF], fun _ => rfl⟩

theorem invl_applyOp (s : SigState) (op : Op) (h : InvL s) : InvL (applyOp s op) := by
  cases op with
  | connect c => exact invl_connectF s c h
  | disconnect c => exact invl_disconnectF s c h
  | moveCtorOp b a => exact invl_moveConnF s b a h
  | moveAssignOp b a t => exact invl_moveAssignF s b a t h
  | destroyConn c => exact invl_destroyConnF s c h
  | destroySig => exact invl_destroySigF s
  | pushHolder =>
    rw [applyOp, pushHolderF]
    split
    · exact h
    · exact h
  | advance i => exact h
  | popHolder => exact h

/-- The structural invariant holds in every state reachable by public
operations. -/
theorem invl_foldl (ops : List Op) (s : SigState) (h : InvL s) :
    InvL (ops.foldl applyOp s) := by
  induction ops generalizing s with
  | nil => exact h
  | cons op rest ih => exact ih _ (invl_applyOp s op h)

/-- C7: in every state reachable from an invariant state by any
sequence of public operations (connect, disconnect, connection move
construction and assignment, connection destruction, signal destruction,
and the holder push / cursor advance / holder pop steps out of which
every emission is composed — so in particular at every point a user
callback runs), a connection is linked in the signal's list exactly when
its owning-signal pointer is non-null; hence the set of connections
owned by the signal is exactly the set of nodes of its list. -/
theorem C7_linked_iff_owned (s : SigState) (ops : List Op) (h : InvL s) :
    ∀ c, ((ops.foldl applyOp s).sig c = true ↔ c ∈ (ops.foldl applyOp s).conns) :=
  (invl_foldl ops s h).2.1

/-- Witness for C7 on a concrete operation sequence. -/
theorem C7_witness :
    InvL ⟨true, [], fun _ => false, []⟩ ∧
      ((([Op.connect 0, Op.connect 1, Op.pushHolder, Op.advance 0,
            Op.disconnect 0]).foldl applyOp ⟨true, [], fun _ => false, []⟩).sig 0 = true ↔
        (0 : CId) ∈ (([Op.connect 0, Op.connect 1, Op.pushHolder, Op.advance 0,
            Op.disconnect 0]).foldl applyOp ⟨true, [], fun _ => false, []⟩).conns) :=
  ⟨⟨List.nodup_nil, fun c => by simp, fun _ => rfl⟩,
    C7_linked_iff_owned ⟨true, [], fun _ => false, []⟩
      [Op.connect 0, Op.connect 1, Op.pushHolder, Op.advance 0, Op.disconnect 0]
      ⟨List.nodup_nil, fun c => by simp, fun _ => rfl⟩ 0⟩

/-- C1 fails on the code: connection move-assignment does not re-steer
iterator holders.  Start from a state where the invariant holds — signal
list `[0, 2]`, one in-progress emission whose cursor points at the
linked connection `2` — and execute the move assignment of connection
`2` into the idle connection `3` (temporary object at address `10`), as
`connection::operator=` does: move-construct the temporary after `2`
(this advances the cursor onto the temporary), `swap` it with `3` (no
holder fix-up in `connection::swap`), destroy the temporary (a no-op
`disconnect`, its `sig` was swapped to null).  Afterwards the emission's
cursor still points at the dead temporary `10`: it is neither a linked
connection (`10` is not in the list) nor the sentinel, while the signal
is alive — the claimed invariant is violated and the next loop
iteration dereferences a destroyed object. -/
theorem C1_moveAssign_dangles_cursor :
    (⟨true, [0, 2], fun c => c == 0 || c == 2, [some 2]⟩ : SigState).holders = [some 2] ∧
      (2 : CId) ∈ (⟨true, [0, 2], fun c => c == 0 || c == 2,
        [some 2]⟩ : SigState).conns ∧
      (⟨true, [0, 2], fun c => c == 0 || c == 2, [some 2]⟩ : SigState).sig 3 = false ∧
      (moveAssignF ⟨true, [0, 2], fun c => c == 0 || c == 2, [some 2]⟩ 3 2 10).holders =
        [some 10] ∧
      (10 : CId) ∉
        (moveAssignF ⟨true, [0, 2], fun c => c == 0 || c == 2, [some 2]⟩ 3 2 10).conns ∧
      (moveAssignF ⟨true, [0, 2], fun c => c == 0 || c == 2, [some 2]⟩ 3 2 10).conns =
        [0, 3] ∧
      (moveAssignF ⟨true, [0, 2], fun c => c == 0 || c == 2, [some 2]⟩ 3 2 10).alive =
        true := by
  refine ⟨rfl, by decide, rfl, ?_, by decide, ?_, rfl⟩ <;> rfl

/-- C4: with a fixed set of listeners connected before the emission and
callables that do not mutate the signal, `operator()(x)` invokes every
currently-connected callable exactly once, in list order = insertion
order, passing the same argument `x` to each, and leaves the signal's
state unchanged; `connect` appends at the tail. -/
theorem C4_dispatch_in_insertion_order (env : Env) (x : Nat) (l : List CId) (sg : CId → Bool)
    (hs : List Cursor) (fuel : Nat) (hnd : l.Nodup) (hsl : ∀ c ∈ l, env.slots c = []) :
    emit env x (fuel + (l.length + 1)) ⟨true, l, sg, hs⟩ =
      (l.map fun c => (c, x), ⟨true, l, sg, hs⟩, false) ∧
    (∀ s c, s.alive = true → s.sig c = false → c ∉ s.conns →
      (connectF s c).conns = s.conns ++ [c]) := by
  constructor
  · have h1 := emitLoop_nop_seg env x l [] [] sg hs (fuel + 1)
      (by simpa using hnd) hsl
    simp only [List.nil_append, List.append_nil, List.head?_nil] at h1
    rw [emitLoop_atEnd] at h1
    simp only [List.append_nil] at h1
    have hfuel : fuel + (l.length + 1) = (fuel + 1) + l.length := by omega
    rw [emit, hfuel]
    simp only [h1]
    rfl
  · intro s c h1 h2 h3
    simp [connectF, h1, h2, h3]

/-- Witness for C4 at a concrete signal with three listeners. -/
theorem C4_witness :
    ([0, 1, 2] : List CId).Nodup ∧
    emit ⟨fun _ => []⟩ 7 (0 + (3 + 1)) ⟨true, [0, 1, 2], fun _ => true, []⟩ =
      ([(0, 7), (1, 7), (2, 7)], ⟨true, [0, 1, 2], fun _ => true, []⟩, false) :=
  ⟨by decide,
    (C4_dispatch_in_insertion_order ⟨fun _ => []⟩ 7 [0, 1, 2] (fun _ => true) [] 0
      (by decide) (by intro c _; rfl)).1⟩

/-- C2: a listener that disconnects its own connection from inside its
callback does not prevent any subsequent still-connected listener of the
emission from being invoked: with listeners `p ++ b :: q` of which only
`b` self-disconnects, every listener is invoked once, in order, and only
`b` leaves the list. -/
theorem C2_self_disconnect_safe (env : Env) (x : Nat) (p q : List CId) (b : CId)
    (sg : CId → Bool) (hs : List Cursor) (fuel : Nat)
    (hnd : (p ++ b :: q).Nodup) (hsgb : sg b = true)
    (hb : env.slots b = [Cmd.disc b])
    (hothers : ∀ c ∈ p ++ q, env.slots c = []) :
    (emit env x (fuel + ((p ++ b :: q).length + 1)) ⟨true, p ++ b :: q, sg, hs⟩).1 =
        ((p ++ b :: q).map fun c => (c, x)) ∧
      (emit env x (fuel + ((p ++ b :: q).length + 1)) ⟨true, p ++ b :: q, sg, hs⟩).2.1.conns =
        p ++ q ∧
      (emit env x (fuel + ((p ++ b :: q).length + 1)) ⟨true, p ++ b :: q, sg, hs⟩).2.2 = false := by
  have hsl : ∀ c ∈ p ++ b :: q, env.slots c = [] ∨ env.slots c = [Cmd.disc c] := by
    intro c hc
    rcases List.mem_append.mp hc with hcp | hcbq
    · exact Or.inl (hothers c (List.mem_append_left q hcp))
    · rcases List.mem_cons.mp hcbq with rfl | hcq
      · exact Or.inr hb
      · exact Or.inl (hothers c (List.mem_append_right p hcq))
  have hwalk := emitLoop_selfdisc env x (p ++ b :: q) [] sg hs fuel (by simpa using hnd) hsl
  simp only [List.nil_append] at hwalk
  have hfilter : (p ++ b :: q).filter
      (fun c => !(decide (env.slots c = [Cmd.disc c]) && sg c)) = p ++ q := by
    rw [List.filter_append, List.filter_cons]
    have hp : p.filter (fun c => !(decide (env.slots c = [Cmd.disc c]) && sg c)) = p := by
      refine List.filter_eq_self.mpr fun c hc => ?_
      simp [hothers c (List.mem_append_left q hc)]
    have hq : q.filter (fun c => !(decide (env.slots c = [Cmd.disc c]) && sg c)) = q := by
      refine List.filter_eq_self.mpr fun c hc => ?_
      simp [hothers c (List.mem_append_right p hc)]
    have hpb : (!(decide (env.slots b = [Cmd.disc b]) && sg b)) = false := by
      rw [hb]; simp [hsgb]
    rw [hp, hq, hpb]
    simp
  rw [hfilter] at hwalk
  rw [emit]
  simp only [hwalk.2.1, if_true]
  exact ⟨hwalk.1, hwalk.2.2.1, hwalk.2.2.2⟩

/-- Witness for C2: listeners 0, 1, 2 where 1 disconnects itself. -/
theorem C2_witness :
    ([0] ++ 1 :: [2] : List CId).Nodup ∧
      (emit ⟨fun c => if c = 1 then [Cmd.disc 1] else []⟩ 5 (0 + (([0] ++ 1 :: [2]).length + 1))
          ⟨true, [0] ++ 1 :: [2], fun _ => true, []⟩).1 =
        (([0] ++ 1 :: [2]).map fun c => (c, 5)) ∧
      (emit ⟨fun c => if c = 1 then [Cmd.disc 1] else []⟩ 5 (0 + (([0] ++ 1 :: [2]).length + 1))
          ⟨true, [0] ++ 1 :: [2], fun _ => true, []⟩).2.1.conns = [0] ++ [2] :=
  ⟨by decide,
    (C2_self_disconnect_safe ⟨fun c => if c = 1 then [Cmd.disc 1] else []⟩ 5 [0] [2] 1
        (fun _ => true) [] 0 (by decide) rfl (by decide) (by decide)).1,
    (C2_self_disconnect_safe ⟨fun c => if c = 1 then [Cmd.disc 1] else []⟩ 5 [0] [2] 1
        (fun _ => true) [] 0 (by decide) rfl (by decide) (by decide)).2.1⟩

/-- C3: destroying the signal from inside a callback terminates the
in-progress emission right after that callback: listeners after the
destroyer are not invoked, the connection list and holder stack are
emptied, every remaining connection's owning-signal pointer is nulled,
and disconnecting or destroying a still-live connection afterwards is a
no-op. -/
theorem C3_destroy_during_dispatch (env : Env) (x : Nat) (p q : List CId) (c0 : CId)
    (sg : CId → Bool) (hs : List Cursor) (fuel : Nat)
    (hnd : (p ++ c0 :: q).Nodup)
    (hc0 : env.slots c0 = [Cmd.destroy])
    (hp : ∀ c ∈ p, env.slots c = []) :
    emit env x (fuel + (p.length + 1)) ⟨true, p ++ c0 :: q, sg, hs⟩ =
        ((p ++ [c0]).map (fun c => (c, x)), ⟨false, [], fun _ => false, []⟩, false) ∧
      (∀ (s1 : SigState) (c : CId),
        disconnectF (destroySigF s1) c = destroySigF s1 ∧
          destroyConnF (destroySigF s1) c = destroySigF s1) := by
  constructor
  · have hseg := emitLoop_nop_seg env x p [] (c0 :: q) sg hs (fuel + 1)
      (by simpa using hnd) hp
    simp only [List.nil_append] at hseg
    have hfuel : fuel + (p.length + 1) = (fuel + 1) + p.length := by omega
    rw [emit, hfuel]
    rw [show ((c0 :: q) : List CId).head? = some c0 from rfl] at hseg
    rw [hseg, emitLoop_succ, hc0]
    simp [runCmds, destroySigF, List.map_append]
  · intro s1 c
    constructor
    · simp [disconnectF, destroySigF]
    · simp [destroyConnF, disconnectF, destroySigF]

/-- Witness for C3: listener 1 of 0, 1, 2 destroys the signal. -/
theorem C3_witness :
    ([0] ++ 1 :: [2] : List CId).Nodup ∧
      emit ⟨fun c => if c = 1 then [Cmd.destroy] else []⟩ 5 (0 + (([0] : List CId).length + 1))
          ⟨true, [0] ++ 1 :: [2], fun _ => true, []⟩ =
        (([0] ++ [1]).map (fun c => (c, 5)), ⟨false, [], fun _ => false, []⟩, false) :=
  ⟨by decide,
    (C3_destroy_during_dispatch ⟨fun c => if c = 1 then [Cmd.destroy] else []⟩ 5 [0] [2] 1
        (fun _ => true) [] 0 (by decide) (by decide) (by decide)).1⟩

/-- C5: a listener connected from inside a callback of an in-progress
emission is appended at the tail and, because the cursor has not yet
reached `end()` (there is a later listener `y` still to visit), it IS
invoked by that same emission. -/
theorem C5_connect_during_dispatch (env : Env) (x : Nat) (p q : List CId) (c0 y d : CId)
    (sg : CId → Bool) (hs : List Cursor) (fuel : Nat)
    (hnd : (p ++ c0 :: y :: q).Nodup)
    (hd : d ∉ p ++ c0 :: y :: q) (hsgd : sg d = false)
    (hc0 : env.slots c0 = [Cmd.conn d])
    (hp : ∀ c ∈ p, env.slots c = [])
    (hrest : ∀ c ∈ y :: q, env.slots c = []) (hdslot : env.slots d = []) :
    (emit env x (fuel + p.length + q.length + 3) ⟨true, p ++ c0 :: y :: q, sg, hs⟩).1 =
        (((p ++ c0 :: y :: q) ++ [d]).map fun c => (c, x)) ∧
      (emit env x (fuel + p.length + q.length + 3)
          ⟨true, p ++ c0 :: y :: q, sg, hs⟩).2.1.conns = (p ++ c0 :: y :: q) ++ [d] ∧
      (emit env x (fuel + p.length + q.length + 3) ⟨true, p ++ c0 :: y :: q, sg, hs⟩).2.2 =
        false := by
  have hc0p : c0 ∉ p := fun hmem =>
    (List.nodup_append.mp hnd).2.2 hmem (List.mem_cons_self c0 (y :: q))
  have hfuel : fuel + p.length + q.length + 3 = (((fuel + (q.length + 2)) + 1) + p.length) := by
    omega
  rw [emit, hfuel]
  have hseg1 := emitLoop_nop_seg env x p [] (c0 :: y :: q) sg hs ((fuel + (q.length + 2)) + 1)
    (by simpa using hnd) hp
  simp only [List.nil_append] at hseg1
  rw [show ((c0 :: y :: q) : List CId).head? = some c0 from rfl] at hseg1
  rw [hseg1, emitLoop_succ, hc0]
  have hstep : stepCursor (p ++ c0 :: y :: q) c0 = some y := by
    rw [stepCursor_middle p (y :: q) c0 hc0p]; rfl
  rw [hstep]
  simp only [runCmds]
  have hconn : connectF ⟨true, p ++ c0 :: y :: q, sg, some y :: hs⟩ d =
      ⟨true, p ++ c0 :: y :: (q ++ [d]), fun e => if e = d then true else sg e,
        some y :: hs⟩ := by
    rw [connectF, if_pos ⟨rfl, hsgd, hd⟩]
    simp
  rw [hconn]
  have hnd2 : ((p ++ [c0]) ++ (y :: (q ++ [d])) ++ ([] : List CId)).Nodup := by
    have h1 : ((p ++ c0 :: y :: q) ++ [d]).Nodup := by
      rw [List.nodup_append]
      exact ⟨hnd, List.nodup_singleton d, by simpa using hd⟩
    simpa using h1
  have hsl2 : ∀ c ∈ y :: (q ++ [d]), env.slots c = [] := by
    intro c hc
    rcases List.mem_cons.mp hc with rfl | hc2
    · exact hrest c (List.mem_cons_self c q)
    · rcases List.mem_append.mp hc2 with hcq | hcd
      · exact hrest c (List.mem_cons_of_mem y hcq)
      · rw [List.mem_singleton.mp hcd]; exact hdslot
  have hseg2 := emitLoop_nop_seg env x (y :: (q ++ [d])) (p ++ [c0]) []
    (fun e => if e = d then true else sg e) hs fuel hnd2 hsl2
  simp only [List.append_nil, List.nil_append, List.append_assoc, List.singleton_append,
    List.cons_append, List.head?_cons, List.head?_nil] at hseg2
  have hf2 : fuel + (q.length + 2) = fuel + (y :: (q ++ [d])).length := by
    simp [List.length_cons, List.length_append]
  rw [hf2, hseg2, emitLoop_atEnd]
  simp [List.map_append]

/-- Witness for C5: listener 0 of 0, 1 connects new listener 9, which is
invoked by the same emission. -/
theorem C5_witness :
    (([] ++ 0 :: 1 :: [] : List CId)).Nodup ∧
      (emit ⟨fun c => if c = 0 then [Cmd.conn 9] else []⟩ 5 (0 + 0 + 0 + 3)
          ⟨true, [] ++ 0 :: 1 :: [], fun _ => false, []⟩).1 =
        ((([] ++ 0 :: 1 :: []) ++ [9]).map fun c => (c, 5)) ∧
      (emit ⟨fun c => if c = 0 then [Cmd.conn 9] else []⟩ 5 (0 + 0 + 0 + 3)
          ⟨true, [] ++ 0 :: 1 :: [], fun _ => false, []⟩).2.1.conns =
        ([] ++ 0 :: 1 :: []) ++ [9] :=
  ⟨by decide,
    (C5_connect_during_dispatch ⟨fun c => if c = 0 then [Cmd.conn 9] else []⟩ 5 [] [] 0 1 9
        (fun _ => false) [] 0 (by decide) (by decide) rfl (by decide) (by decide) (by decide)
        (by decide)).1,
    (C5_connect_during_dispatch ⟨fun c => if c = 0 then [Cmd.conn 9] else []⟩ 5 [] [] 0 1 9
        (fun _ => false) [] 0 (by decide) (by decide) rfl (by decide) (by decide) (by decide)
        (by decide)).2.1⟩

/-- Move-constructing `b` from a live connection `a` linked between `p`
and `q`: `b` takes over `a`'s slot in the list order, `a` becomes idle,
and every holder cursor that was parked on `a` now points at `b`. -/
theorem moveConnF_live (s : SigState) (b a : CId) (p q : List CId)
    (hconns : s.conns = p ++ a :: q) (hap : a ∉ p) (hsgb : s.sig b = false)
    (hbm : b ∉ s.conns) (hba : b ≠ a) (hsga : s.sig a = true) :
    moveConnF s b a =
      ⟨s.alive, p ++ b :: q,
        fun d => if d = a then false else if d = b then true else s.sig d,
        s.holders.map fun cur => if cur = some a then some b else cur⟩ := by
  have hab : a ≠ b := Ne.symm hba
  have hins : insertAfter s.conns a b = p ++ a :: b :: q := by
    rw [hconns]; exact insertAfter_middle p q a b hap
  have hcond : ({ s with
      conns := insertAfter s.conns a b,
      sig := fun d => if d = b then true else s.sig d } : SigState).sig a = true := by
    simp [hab, hsga]
  have hstep2 : stepCursor (insertAfter s.conns a b) a = some b := by
    rw [hins, stepCursor_middle p (b :: q) a hap]; rfl
  rw [moveConnF, if_pos ⟨hsgb, hbm, hba⟩, if_pos hsga, disconnectF_pos _ _ hcond]
  simp only [SigState.mk.injEq]
  refine ⟨trivial, ?_, trivial, ?_⟩
  · show (insertAfter s.conns a b).erase a = p ++ b :: q
    rw [hins]
    exact erase_middle p (b :: q) a hap
  · show s.holders.map _ = s.holders.map _
    refine List.map_congr_left fun cur _ => ?_
    show (if cur = some a then stepCursor (insertAfter s.conns a b) a else cur) =
      (if cur = some a then some b else cur)
    rw [hstep2]

/-- C10: move-constructing `b` from a live connection `a` splices `b` in
directly after `a` before `a` is disconnected, so `b` takes `a`'s
position in dispatch order and every cursor parked on `a` is advanced
onto `b`; consequently an in-progress emission whose cursor pointed at
`a` invokes `b` in `a`'s place. -/
theorem C10_move_takes_place_in_dispatch (env : Env) (x : Nat) :
    (∀ (s : SigState) (b a : CId) (p q : List CId),
      s.conns = p ++ a :: q → a ∉ p → s.sig b = false → b ∉ s.conns → b ≠ a →
        s.sig a = true →
        (moveConnF s b a).conns = p ++ b :: q ∧
          (moveConnF s b a).holders =
            (s.holders.map fun cur => if cur = some a then some b else cur) ∧
          (moveConnF s b a).sig b = true ∧ (moveConnF s b a).sig a = false) ∧
    (∀ (p r : List CId) (c0 a b : CId) (sg : CId → Bool) (hs : List Cursor) (fuel : Nat),
      (p ++ c0 :: a :: r).Nodup → b ∉ p ++ c0 :: a :: r → sg b = false → sg a = true →
        env.slots c0 = [Cmd.moveC b a] → (∀ c ∈ p, env.slots c = []) →
        (∀ c ∈ b :: r, env.slots c = []) →
        (emit env x (fuel + p.length + r.length + 2) ⟨true, p ++ c0 :: a :: r, sg, hs⟩).1 =
            ((p ++ c0 :: b :: r).map fun c => (c, x)) ∧
          (emit env x (fuel + p.length + r.length + 2)
            ⟨true, p ++ c0 :: a :: r, sg, hs⟩).2.1.conns = p ++ c0 :: b :: r ∧
          (emit env x (fuel + p.length + r.length + 2)
            ⟨true, p ++ c0 :: a :: r, sg, hs⟩).2.2 = false) := by
  constructor
  · intro s b a p q hconns hap hsgb hbm hba hsga
    rw [moveConnF_live s b a p q hconns hap hsgb hbm hba hsga]
    refine ⟨rfl, rfl, ?_, ?_⟩
    · show (if b = a then false else if b = b then true else s.sig b) = true
      rw [if_neg hba, if_pos rfl]
    · show (if a = a then false else if a = b then true else s.sig a) = false
      rw [if_pos rfl]
  · intro p r c0 a b sg hs fuel hnd hb hsgb hsga hc0 hp hbr
    have hnd' : ((p ++ [c0]) ++ a :: r).Nodup := by simpa using hnd
    have hc0p : c0 ∉ p := fun hmem =>
      (List.nodup_append.mp hnd).2.2 hmem (List.mem_cons_self c0 (a :: r))
    have hapc : a ∉ p ++ [c0] := fun hmem =>
      (List.nodup_append.mp hnd').2.2 hmem (List.mem_cons_self a r)
    have hba : b ≠ a := fun h => hb (by
      rw [h]
      exact List.mem_append_right p (List.mem_cons_of_mem c0 (List.mem_cons_self a r)))
    have hfuel : fuel + p.length + r.length + 2 =
        (((fuel + (r.length + 1)) + 1) + p.length) := by omega
    rw [emit, hfuel]
    have hseg1 := emitLoop_nop_seg env x p [] (c0 :: a :: r) sg hs ((fuel + (r.length + 1)) + 1)
      (by simpa using hnd) hp
    simp only [List.nil_append] at hseg1
    rw [show ((c0 :: a :: r) : List CId).head? = some c0 from rfl] at hseg1
    rw [hseg1, emitLoop_succ, hc0]
    have hstep : stepCursor (p ++ c0 :: a :: r) c0 = some a := by
      rw [stepCursor_middle p (a :: r) c0 hc0p]; rfl
    rw [hstep]
    simp only [runCmds]
    have hmv := moveConnF_live ⟨true, p ++ c0 :: a :: r, sg, some a :: hs⟩ b a (p ++ [c0]) r
      (by simp) hapc hsgb (by simpa using hb) hba hsga
    rw [hmv]
    dsimp only
    simp only [List.append_assoc, List.singleton_append, List.map_cons, if_pos rfl, if_true,
      eq_self_iff_true]
    have hnd2 : ((p ++ [c0]) ++ (b :: r) ++ ([] : List CId)).Nodup := by
      rw [List.append_nil, List.nodup_append]
      refine ⟨(List.nodup_append.mp hnd').1, ?_, ?_⟩
      · rw [List.nodup_cons]
        refine ⟨fun hmem => hb ?_, (List.nodup_cons.mp (List.nodup_append.mp hnd').2.1).2⟩
        exact List.mem_append_right p
          (List.mem_cons_of_mem c0 (List.mem_cons_of_mem a hmem))
      · intro e he1 he2
        rcases List.mem_cons.mp he2 with rfl | he3
        · exact hb (by
            rcases List.mem_append.mp he1 with h1 | h1
            · exact List.mem_append_left _ h1
            · rw [List.mem_singleton.mp h1]
              exact List.mem_append_right p (List.mem_cons_self c0 (a :: r)))
        · exact (List.nodup_append.mp hnd').2.2 he1 (List.mem_cons_of_mem a he3)
    have hseg2 := emitLoop_nop_seg env x (b :: r) (p ++ [c0]) []
      (fun d => if d = a then false else if d = b then true else sg d)
      (hs.map fun cur => if cur = some a then some b else cur) fuel hnd2 hbr
    simp only [List.append_nil, List.nil_append, List.append_assoc, List.singleton_append,
      List.cons_append, List.head?_cons, List.head?_nil] at hseg2
    have hf2 : fuel + (r.length + 1) = fuel + (b :: r).length := by
      simp [List.length_cons]
    rw [hf2, hseg2, emitLoop_atEnd]
    simp [List.map_append]

/-- Witness for C10: emission over 0, 1 where 0's callback
move-constructs 9 from 1 (the cursor is parked on 1); 9 is invoked in
1's place. -/
theorem C10_witness :
    (([] ++ 0 :: 1 :: [] : List CId)).Nodup ∧
      (emit ⟨fun c => if c = 0 then [Cmd.moveC 9 1] else []⟩ 5 (0 + 0 + 0 + 2)
          ⟨true, [] ++ 0 :: 1 :: [], fun c => c == 0 || c == 1, []⟩).1 =
        (([] ++ 0 :: 9 :: []).map fun c => (c, 5)) ∧
      (emit ⟨fun c => if c = 0 then [Cmd.moveC 9 1] else []⟩ 5 (0 + 0 + 0 + 2)
          ⟨true, [] ++ 0 :: 1 :: [], fun c => c == 0 || c == 1, []⟩).2.1.conns =
        [] ++ 0 :: 9 :: [] :=
  ⟨by decide,
    ((C10_move_takes_place_in_dispatch ⟨fun c => if c = 0 then [Cmd.moveC 9 1] else []⟩ 5).2
        [] [] 0 1 9 (fun c => c == 0 || c == 1) [] 0 (by decide) (by decide) (by decide)
        (by decide) (by decide) (by decide) (by decide)).1,
    ((C10_move_takes_place_in_dispatch ⟨fun c => if c = 0 then [Cmd.moveC 9 1] else []⟩ 5).2
        [] [] 0 1 9 (fun c => c == 0 || c == 1) [] 0 (by decide) (by decide) (by decide)
        (by decide) (by decide) (by decide) (by decide)).2.1⟩

/-- C9: an exception thrown by a user callable propagates out of
`operator()` with the library state consistent: the iterator holder pops
itself on the abnormal exit exactly as on a normal exit, restoring the
holder stack `hs` of the outer emissions, and the connection list is
exactly as the callbacks left it.  Because the cursor is advanced before
the call, the throwing connection may even disconnect itself first
without perturbing the walk state. -/
theorem C9_exception_safety (x : Nat) (p q : List CId) (c0 : CId) (sg : CId → Bool)
    (hs : List Cursor) (fuel : Nat) (hnd : (p ++ c0 :: q).Nodup) :
    (∀ env : Env, env.slots c0 = [Cmd.throwE] → (∀ c ∈ p, env.slots c = []) →
      emit env x (fuel + (p.length + 1)) ⟨true, p ++ c0 :: q, sg, hs⟩ =
        ((p ++ [c0]).map fun c => (c, x), ⟨true, p ++ c0 :: q, sg, hs⟩, true)) ∧
    (∀ env : Env, (∀ c ∈ p ++ c0 :: q, env.slots c = []) →
      emit env x (fuel + ((p ++ c0 :: q).length + 1)) ⟨true, p ++ c0 :: q, sg, hs⟩ =
        ((p ++ c0 :: q).map fun c => (c, x), ⟨true, p ++ c0 :: q, sg, hs⟩, false)) ∧
    (∀ env : Env, env.slots c0 = [Cmd.disc c0, Cmd.throwE] → (∀ c ∈ p, env.slots c = []) →
      sg c0 = true → (∀ cur ∈ hs, cur ≠ some c0) →
      emit env x (fuel + (p.length + 1)) ⟨true, p ++ c0 :: q, sg, hs⟩ =
        ((p ++ [c0]).map fun c => (c, x),
          ⟨true, p ++ q, fun d => if d = c0 then false else sg d, hs⟩, true)) := by
  have hc0p : c0 ∉ p := fun hmem =>
    (List.nodup_append.mp hnd).2.2 hmem (List.mem_cons_self c0 q)
  have hc0q : c0 ∉ q := (List.nodup_cons.mp (List.nodup_append.mp hnd).2.1).1
  have hqh : ¬(q.head? = some c0) := by
    cases q with
    | nil => simp
    | cons y ys =>
      have hy : y ≠ c0 := fun h => hc0q (h ▸ List.mem_cons_self y ys)
      simpa using hy
  refine ⟨?_, ?_, ?_⟩
  · intro env hc0 hp
    have hfuel : fuel + (p.length + 1) = (fuel + 1) + p.length := by omega
    rw [emit, hfuel]
    have hseg := emitLoop_nop_seg env x p [] (c0 :: q) sg hs (fuel + 1) (by simpa using hnd) hp
    simp only [List.nil_append] at hseg
    rw [show ((c0 :: q) : List CId).head? = some c0 from rfl] at hseg
    rw [hseg, emitLoop_succ, hc0]
    simp only [runCmds]
    simp [List.map_append]
  · intro env hall
    have hfuel : fuel + ((p ++ c0 :: q).length + 1) = (fuel + 1) + (p ++ c0 :: q).length := by
      omega
    rw [emit, hfuel]
    have hseg := emitLoop_nop_seg env x (p ++ c0 :: q) [] [] sg hs (fuel + 1)
      (by simpa using hnd) hall
    simp only [List.nil_append, List.append_nil, List.head?_nil] at hseg
    rw [emitLoop_atEnd] at hseg
    simp only [List.append_nil] at hseg
    simp only [hseg]
    rfl
  · intro env hc0 hp hsgc0 hhs
    have hfuel : fuel + (p.length + 1) = (fuel + 1) + p.length := by omega
    rw [emit, hfuel]
    have hseg := emitLoop_nop_seg env x p [] (c0 :: q) sg hs (fuel + 1) (by simpa using hnd) hp
    simp only [List.nil_append] at hseg
    rw [show ((c0 :: q) : List CId).head? = some c0 from rfl] at hseg
    rw [hseg, emitLoop_succ, hc0]
    have hstep : stepCursor (p ++ c0 :: q) c0 = q.head? := stepCursor_middle p q c0 hc0p
    rw [hstep]
    simp only [runCmds]
    have hmap : (hs.map fun cur =>
        if cur = some c0 then stepCursor (p ++ c0 :: q) c0 else cur) = hs := by
      have hpt : ∀ cur ∈ hs,
          (if cur = some c0 then stepCursor (p ++ c0 :: q) c0 else cur) = cur :=
        fun cur hc => if_neg (hhs cur hc)
      rw [List.map_congr_left hpt]
      simp
    have hd2 : disconnectF ⟨true, p ++ c0 :: q, sg, q.head? :: hs⟩ c0 =
        ⟨true, p ++ q, fun d => if d = c0 then false else sg d, q.head? :: hs⟩ := by
      rw [disconnectF_pos _ _ hsgc0]
      dsimp only
      rw [erase_middle p q c0 hc0p, List.map_cons, if_neg hqh, hmap]
    rw [hd2]
    simp [List.map_append]

/-- Witness for C9: listener 1 of 0, 1, 2 disconnects itself and then
throws; the exception propagates, the holder stack is restored and 1 has
left the list. -/
theorem C9_witness :
    (([0] ++ 1 :: [2] : List CId)).Nodup ∧
      emit ⟨fun c => if c = 1 then [Cmd.disc 1, Cmd.throwE] else []⟩ 5
          (0 + (([0] : List CId).length + 1)) ⟨true, [0] ++ 1 :: [2], fun _ => true, []⟩ =
        (([0] ++ [1]).map fun c => (c, 5),
          ⟨true, [0] ++ [2], fun d => if d = 1 then false else true, []⟩, true) :=
  ⟨by decide,
    (C9_exception_safety 5 [0] [2] 1 (fun _ => true) [] 0 (by decide)).2.2
      ⟨fun c => if c = 1 then [Cmd.disc 1, Cmd.throwE] else []⟩ (by decide) (by decide) rfl
      (by intro cur hc; cases hc)⟩

/-- C6: `disconnect` is idempotent: a second call leaves exactly the
state of the first, and `disconnect` on a connection whose owning-signal
pointer is null changes nothing at all. -/
theorem C6_disconnect_idempotent (s : SigState) (c : CId) :
    disconnectF (disconnectF s c) c = disconnectF s c ∧
    (s.sig c = false → disconnectF s c = s) := by
  constructor
  · by_cases h : s.sig c = true
    · have h2 : (disconnectF s c).sig c = false := by simp [disconnectF, h]
      rw [disconnectF]
      simp [h2]
    · simp [disconnectF, h]
  · intro h
    simp [disconnectF, h]

/-- Witness for C6 on a concrete idle connection. -/
theorem C6_witness :
    (⟨true, [0], fun c => c = 0, []⟩ : SigState).sig 5 = false ∧
    disconnectF ⟨true, [0], fun c => c = 0, []⟩ 5 = ⟨true, [0], fun c => c = 0, []⟩ :=
  ⟨by decide, (C6_disconnect_idempotent ⟨true, [0], fun c => c = 0, []⟩ 5).2 (by decide)⟩

end Signals

namespace Node

theorem setPrev_prev (h : Heap) (a v z : Nat) :
    (setPrev h a v).prev z = if z = a then v else h.prev z := rfl

theorem setPrev_next (h : Heap) (a v z : Nat) : (setPrev h a v).next z = h.next z := rfl

theorem setNext_next (h : Heap) (a v z : Nat) :
    (setNext h a v).next z = if z = a then v else h.next z := rfl

theorem setNext_prev (h : Heap) (a v z : Nat) : (setNext h a v).prev z = h.prev z := rfl

/-- C8: moving an intrusive-list node transfers list membership.  If `a`
is linked between `x` and `y`, then after move-constructing the fresh
node `b` from `a` (part 1) or move-assigning `a` into the idle node `b`
through the temporary `t` (part 3), `b` is linked between `x` and `y`
with reciprocity repaired and `a` is the idle self-loop; moving an idle
node leaves source and destination idle, both for the constructor
(part 2, whatever garbage `b`'s uninitialized fields held) and for the
assignment (part 4). -/
theorem C8_node_move_transfers_membership :
    (∀ (h : Heap) (b a x y : Nat),
      h.prev a = x → h.next a = y → h.next x = a → h.prev y = a →
      a ≠ x → a ≠ y → b ≠ a → b ≠ x → b ≠ y →
      (moveCtor h b a).next x = b ∧ (moveCtor h b a).prev b = x ∧
        (moveCtor h b a).next b = y ∧ (moveCtor h b a).prev y = b ∧
        (moveCtor h b a).prev a = a ∧ (moveCtor h b a).next a = a) ∧
    (∀ (h : Heap) (b a : Nat), emptyN h a = true → b ≠ a →
      (moveCtor h b a).prev b = b ∧ (moveCtor h b a).next b = b ∧
        (moveCtor h b a).prev a = a ∧ (moveCtor h b a).next a = a) ∧
    (∀ (h : Heap) (b a t x y : Nat),
      h.prev a = x → h.next a = y → h.next x = a → h.prev y = a →
      emptyN h b = true →
      a ≠ x → a ≠ y → b ≠ a → b ≠ x → b ≠ y →
      t ≠ a → t ≠ b → t ≠ x → t ≠ y →
      (moveAssign h b a t).next x = b ∧ (moveAssign h b a t).prev b = x ∧
        (moveAssign h b a t).next b = y ∧ (moveAssign h b a t).prev y = b ∧
        (moveAssign h b a t).prev a = a ∧ (moveAssign h b a t).next a = a) ∧
    (∀ (h : Heap) (b a t : Nat),
      emptyN h a = true → emptyN h b = true → b ≠ a → t ≠ a → t ≠ b →
      (moveAssign h b a t).prev b = b ∧ (moveAssign h b a t).next b = b ∧
        (moveAssign h b a t).prev a = a ∧ (moveAssign h b a t).next a = a) := by
  refine ⟨?_, ?_, ?_, ?_⟩
  · intro h b a x y hpx hny hnx hpy hax hay hba hbx hby
    have hne : ¬(emptyN h a = true) := by
      simp [emptyN, hny]
      intro h2
      exact absurd h2.symm hay
    rw [moveCtor, if_neg hne]
    refine ⟨?_, ?_, ?_, ?_, ?_, ?_⟩ <;>
      simp [quiteRemove, update, setPrev_prev, setPrev_next, setNext_next, setNext_prev,
        hpx, hny, hnx, hpy, hax, hay, hba, hbx, hby,
        Ne.symm hax, Ne.symm hay, Ne.symm hba, Ne.symm hbx, Ne.symm hby]
  · intro h b a haidle hba
    have ha2 := haidle
    simp only [emptyN, Bool.and_eq_true, beq_iff_eq] at ha2
    rw [moveCtor, if_pos haidle]
    refine ⟨?_, ?_, ?_, ?_⟩ <;>
      simp [quiteRemove, setPrev_prev, setPrev_next, setNext_next, setNext_prev,
        ha2.1, ha2.2, hba, Ne.symm hba]
  · intro h b a t x y hpx hny hnx hpy hbidle hax hay hba hbx hby hta htb htx hty
    have hb2 := hbidle
    simp only [emptyN, Bool.and_eq_true, beq_iff_eq] at hb2
    have hne : ¬(emptyN h a = true) := by
      simp [emptyN, hny]
      intro h2
      exact absurd h2.symm hay
    rw [moveAssign, if_neg hba, moveCtor, if_neg hne]
    refine ⟨?_, ?_, ?_, ?_, ?_, ?_⟩ <;>
      simp [removeN, swapN, quiteRemove, update, emptyN,
        setPrev_prev, setPrev_next, setNext_next, setNext_prev,
        hpx, hny, hnx, hpy, hax, hay, hba, hbx, hby, hta, htb, htx, hty, hb2.1, hb2.2,
        Ne.symm hax, Ne.symm hay, Ne.symm hba, Ne.symm hbx, Ne.symm hby,
        Ne.symm hta, Ne.symm htb, Ne.symm htx, Ne.symm hty]
  · intro h b a t haidle hbidle hba hta htb
    have ha2 := haidle
    simp only [emptyN, Bool.and_eq_true, beq_iff_eq] at ha2
    have hb2 := hbidle
    simp only [emptyN, Bool.and_eq_true, beq_iff_eq] at hb2
    rw [moveAssign, if_neg hba, moveCtor, if_pos haidle]
    refine ⟨?_, ?_, ?_, ?_⟩ <;>
      simp [removeN, swapN, quiteRemove, update, emptyN,
        setPrev_prev, setPrev_next, setNext_next, setNext_prev,
        ha2.1, ha2.2, hb2.1, hb2.2, hba, hta, htb,
        Ne.symm hba, Ne.symm hta, Ne.symm htb]

/-- Witness for C8 on a concrete three-node cycle 0 – 1 – 2 (sentinel
0): move-construct node 3 from node 1. -/
theorem C8_witness :
    (Heap.mk (fun n => if n = 0 then 2 else if n = 1 then 0 else if n = 2 then 1 else n)
        (fun n => if n = 0 then 1 else if n = 1 then 2 else if n = 2 then 0 else n)).prev 1
      = 0 ∧
    (moveCtor
        (Heap.mk (fun n => if n = 0 then 2 else if n = 1 then 0 else if n = 2 then 1 else n)
          (fun n => if n = 0 then 1 else if n = 1 then 2 else if n = 2 then 0 else n))
        3 1).next 0 = 3 ∧
    (moveCtor
        (Heap.mk (fun n => if n = 0 then 2 else if n = 1 then 0 else if n = 2 then 1 else n)
          (fun n => if n = 0 then 1 else if n = 1 then 2 else if n = 2 then 0 else n))
        3 1).prev 3 = 0 ∧
    (moveCtor
        (Heap.mk (fun n => if n = 0 then 2 else if n = 1 then 0 else if n = 2 then 1 else n)
          (fun n => if n = 0 then 1 else if n = 1 then 2 else if n = 2 then 0 else n))
        3 1).next 3 = 2 ∧
    (moveCtor
        (Heap.mk (fun n => if n = 0 then 2 else if n = 1 then 0 else if n = 2 then 1 else n)
          (fun n => if n = 0 then 1 else if n = 1 then 2 else if n = 2 then 0 else n))
        3 1).prev 2 = 3 ∧
    (moveCtor
        (Heap.mk (fun n => if n = 0 then 2 else if n = 1 then 0 else if n = 2 then 1 else n)
          (fun n => if n = 0 then 1 else if n = 1 then 2 else if n = 2 then 0 else n))
        3 1).prev 1 = 1 ∧
    (moveCtor
        (Heap.mk (fun n => if n = 0 then 2 else if n = 1 then 0 else if n = 2 then 1 else n)
          (fun n => if n = 0 then 1 else if n = 1 then 2 else if n = 2 then 0 else n))
        3 1).next 1 = 1 := by
  have h1 := C8_node_move_transfers_membership.1
    (Heap.mk (fun n => if n = 0 then 2 else if n = 1 then 0 else if n = 2 then 1 else n)
      (fun n => if n = 0 then 1 else if n = 1 then 2 else if n = 2 then 0 else n))
    3 1 0 2 (by decide) (by decide) (by decide) (by decide) (by decide) (by decide)
    (by decide) (by decide) (by decide)
  exact ⟨by decide, h1.1, h1.2.1, h1.2.2.1, h1.2.2.2.1, h1.2.2.2.2.1, h1.2.2.2.2.2⟩

end Node
